import Mathlib

/-!
Verification of the deepthought microscopy control-loop core.

This file gives a shallow embedding, in Lean 4, of the action-perception
loop of the deepthought repository:

* `deepthought/microscopy_loop.py` — the instrument-state data model, the
  three concrete actions (`MoveStageTo`, `AcquireImage`, `AutoFocus`), the
  `Perception` aggregation model and the `MicroscopyLoop` driver;
* `deepthought/microscopy_strategies.py` — the concrete strategies
  (`CompositeStrategy`, `MapSampleStrategy`,
  `MultiChannelAcquisitionStrategy`, …);
* `deepthought/hardware/plans.py` — the two-stage autofocus search
  (`find_sample_surface` / `_focus_search`).

Modelling conventions:

* Python floats are modelled as exact rationals (`ℚ`); every numeric
  literal occurring in the embedded code is exactly representable, so no
  rounding behaviour is lost for the properties proved here.
* Python `dict`s are modelled as insertion-ordered association lists
  (`PyDict` below): writing to an existing key replaces its value in
  place, writing a fresh key appends it at the end — exactly the
  observable ordering semantics of CPython dicts.
* Mutation of objects is modelled by explicit state passing: a method
  that mutates `self` becomes a function returning the updated value.
* `async` execution is sequential in the source (a single awaited call
  per loop step), so `execute` is modelled as a plain function; the loop
  is parametric in the executor, mirroring the duck-typed dispatch on
  `action.execute`.
* The unbounded `while True` of `MicroscopyLoop.run` is modelled with an
  explicit fuel parameter; running out of fuel is a distinguished
  outcome, so nontermination of the source loop is observable as
  `outOfFuel` for every fuel value.
-/

/-! ## Python dictionaries as insertion-ordered association lists -/

/-- Insertion-ordered association list modelling a Python `dict`. -/
abbrev PyDict (K V : Type) := List (K × V)

namespace PyDict

variable {K V : Type} [DecidableEq K]

/-- `d.get(k)` / `d[k]` lookup: first binding of `k`, if any. -/
def get? (d : PyDict K V) (k : K) : Option V :=
  match d with
  | [] => none
  | (k₁, v) :: rest => if k₁ = k then some v else get? rest k

/-- `d[k] = v`: replace the value of an existing key in place, otherwise
append the new binding at the end (CPython insertion order). -/
def set (d : PyDict K V) (k : K) (v : V) : PyDict K V :=
  match d with
  | [] => [(k, v)]
  | (k₁, v₁) :: rest => if k₁ = k then (k₁, v) :: rest else (k₁, v₁) :: set rest k v

/-- `d.update(e)`: fold `set` over the entries of `e` (Python dict merge). -/
def merge (d e : PyDict K V) : PyDict K V :=
  e.foldl (fun acc kv => acc.set kv.1 kv.2) d

/-- The keys of the dictionary, in insertion order. -/
def keys (d : PyDict K V) : List K := d.map Prod.fst

/-- Key membership, `k in d`. -/
def hasKey (d : PyDict K V) (k : K) : Bool := decide (k ∈ d.keys)

end PyDict

/-! ## Data model (`microscopy_loop.py`) -/

/-- Status of an action execution (`ActionStatus` enum). -/
inductive ActionStatus where
  | pending
  | running
  | completed
  | failed
deriving DecidableEq, Repr

/-- 3D stage position in microns (`StagePosition` dataclass). -/
structure StagePosition where
  x : ℚ
  y : ℚ
  z : ℚ
deriving DecidableEq, Repr

/-- Microscope objective properties (`Objective` dataclass). -/
structure Objective where
  magnification : ℚ
  numerical_aperture : ℚ
  working_distance : ℚ
  is_air : Bool := true
deriving DecidableEq, Repr

/-- Current light path configuration (`LightPath` dataclass). -/
structure LightPath where
  source : String
  intensity : ℚ
  exposure : ℚ
  filters : List String := []
deriving DecidableEq, Repr

/-- Complete state of the microscope system (`MicroscopeState` dataclass). -/
structure MicroscopeState where
  objective : Objective
  stage : StagePosition
  light_path : LightPath
  temperature : ℚ
  last_action : Option String := none
deriving DecidableEq, Repr

/-- Natural morphological properties (`Morphology` dataclass of
`domain/biology.py`); carried by observations but not read by any
embedded operation. -/
structure Morphology where
  size : ℚ × ℚ × ℚ
  shape_features : PyDict String ℚ := []
deriving DecidableEq, Repr

/-- A single observation of an entity (`EntityObservation` dataclass of
`domain/biology.py`).  The untyped `metadata` dict is not modelled: no
embedded operation reads it. -/
structure EntityObservation where
  entity_id : String
  timestamp : ℚ
  position : Option (ℚ × ℚ × ℚ) := none
  morphology : Option Morphology := none
  intensities : PyDict String ℚ := []
  exposures : PyDict String ℚ := []
  quality_metrics : PyDict String ℚ := []
deriving DecidableEq, Repr

/-- A biological entity (`BiologicalEntity` of `domain/biology.py`),
reduced to the parts `Perception.update` can reach: its id and its
observation history.  `add_observation` also refreshes derived natural /
experimental properties from the observation; no claim reads those, so
they are not carried. -/
structure BiologicalEntity where
  entity_id : String
  observation_history : List EntityObservation := []
deriving DecidableEq, Repr

/-- `BiologicalEntity.add_observation`: append to the history. -/
def BiologicalEntity.add_observation (e : BiologicalEntity) (observation : EntityObservation) :
    BiologicalEntity :=
  { e with observation_history := e.observation_history ++ [observation] }

/-- Technical parameters for observation (`TechnicalParameters` dataclass
of `domain/observation.py`). -/
structure TechnicalParameters where
  pixel_size : ℚ
  time_resolution : ℚ
  channels : PyDict String (PyDict String ℚ) := []
  exposure_times : PyDict String ℚ := []
  laser_powers : PyDict String ℚ := []
  gain : PyDict String ℚ := []
deriving DecidableEq, Repr

/-- Context for action execution (`ActionContext` dataclass).  Wall-clock
`datetime.now()` is not modelled; the timestamp defaults to `0`. -/
structure ActionContext where
  microscope_state : MicroscopeState
  technical_params : TechnicalParameters
  timestamp : ℚ := 0
  metadata : PyDict String String := []
deriving DecidableEq, Repr

/-- Result of action execution (`ActionResult` dataclass).  The free-form
`data` dict is flattened into one optional field per key the source ever
stores (`position`, `image`, `exposure`, `channel`, `focus_position`) or
reads (`observation`); `'observation' in result.data` is
`data_observation.isSome`. -/
structure ActionResult where
  status : ActionStatus
  data_position : Option StagePosition := none
  data_image : Bool := false
  data_exposure : Option ℚ := none
  data_channel : Option String := none
  data_focus_position : Option ℚ := none
  data_observation : Option EntityObservation := none
  error : Option String := none
  duration : ℚ := 0
  energy_cost : ℚ := 0
deriving DecidableEq, Repr

/-- The three concrete microscope actions of `microscopy_loop.py`, as a
closed variant type: `MoveStageTo(target)`, `AcquireImage(exposure,
channel)`, `AutoFocus(range_um, steps)`. -/
inductive MicroscopeAction where
  | moveStageTo (target : StagePosition)
  | acquireImage (exposure : ℚ) (channel : String)
  | autoFocus (range_um : ℚ) (steps : ℕ)
deriving DecidableEq, Repr

/-- Modelled from the spec: the source's `predict_state` methods call
`current_state.copy()`, whose implementation is not under `src/`
(`MicroscopeState` there is a plain dataclass; the tested implementation
lives in the absent `core/loop.py`).  Per the spec, an action "produces a
wholly new InstrumentState via prediction, never a mutation in place", so
`copy` yields a fresh state equal to the original — in a value semantics
this is the identity. -/
def MicroscopeState.copy (s : MicroscopeState) : MicroscopeState := s

/-- `validate(state)` of each action.  `MoveStageTo` and `AutoFocus`
return `True` unconditionally; `AcquireImage` requires
`state.light_path.source == self.channel and 0 < self.exposure <= 1000`. -/
def MicroscopeAction.validate : MicroscopeAction → MicroscopeState → Bool
  | .moveStageTo _, _ => true
  | .acquireImage exposure channel, state =>
      decide (state.light_path.source = channel ∧ 0 < exposure ∧ exposure ≤ 1000)
  | .autoFocus _ _, _ => true

/-- `predict_state(current_state)` of each action: copy the state, then
assign the fields the source assigns on the copy. -/
def MicroscopeAction.predict_state : MicroscopeAction → MicroscopeState → MicroscopeState
  | .moveStageTo target, current_state =>
      let new_state := current_state.copy
      { new_state with stage := target, last_action := some "move_stage" }
  | .acquireImage exposure _, current_state =>
      let new_state := current_state.copy
      { new_state with
          light_path := { new_state.light_path with exposure := exposure },
          last_action := some "acquire_image" }
  | .autoFocus _ _, current_state =>
      let new_state := current_state.copy
      { new_state with last_action := some "autofocus" }

/-- `MicroscopeState.can_execute(action)` delegates to `action.validate`. -/
def MicroscopeState.can_execute (s : MicroscopeState) (action : MicroscopeAction) : Bool :=
  action.validate s

/-- The `execute` bodies of the three concrete actions in
`microscopy_loop.py`: the non-exceptional path of each always returns a
`COMPLETED` result with the literal `data` dict built by the source (the
placeholder image of `AcquireImage` is recorded as `data_image := true`).
None of them ever stores an `'observation'` key. -/
def defaultExecute : MicroscopeAction → ActionContext → ActionResult
  | .moveStageTo target, _ =>
      { status := .completed, data_position := some target }
  | .acquireImage exposure channel, _ =>
      { status := .completed, data_image := true, data_exposure := some exposure,
        data_channel := some channel, energy_cost := exposure }
  | .autoFocus _ _, _ =>
      { status := .completed, data_focus_position := some 0 }

/-! ## Perception (`microscopy_loop.py`) -/

/-- Understanding built from observations (`Perception` dataclass). -/
structure Perception where
  entities : PyDict String BiologicalEntity := []
  confidence : PyDict String ℚ := []
  spatial_context : PyDict String (ℚ × ℚ × ℚ) := []
  temporal_context : PyDict String ℚ := []
  quality_metrics : PyDict String ℚ := []
deriving DecidableEq, Repr

/-- `Perception.update(observation)`.  For a known entity the entity record
gets the observation appended; for a new id the `else` branch is `pass`
(nothing is created).  Confidence is always overwritten with the
observation's `detection_confidence` metric (default `0.5`), the spatial
context with the position when one is present (`if observation.position:`
— a 3-tuple is always truthy), the temporal context with the timestamp,
and the observation's quality metrics are merged in. -/
def Perception.update (p : Perception) (observation : EntityObservation) : Perception :=
  let entity_id := observation.entity_id
  let entities :=
    match p.entities.get? entity_id with
    | some e => p.entities.set entity_id (e.add_observation observation)
    | none => p.entities
  let confidence :=
    p.confidence.set entity_id ((observation.quality_metrics.get? "detection_confidence").getD (1/2))
  let spatial_context :=
    match observation.position with
    | some pos => p.spatial_context.set entity_id pos
    | none => p.spatial_context
  let temporal_context := p.temporal_context.set entity_id observation.timestamp
  let quality_metrics := p.quality_metrics.merge observation.quality_metrics
  { entities := entities, confidence := confidence, spatial_context := spatial_context,
    temporal_context := temporal_context, quality_metrics := quality_metrics }

/-! ## The control loop (`MicroscopyLoop.run`) -/

/-- A strategy as a state machine over an explicit state type `σ`:
`next_action` may mutate the strategy (state passing), `is_complete`
reads it.  This models the duck-typed `ObservationStrategy` protocol the
loop drives. -/
structure StrategyFn (σ : Type) where
  next_action : σ → Perception → Option MicroscopeAction × σ
  is_complete : σ → Perception → Bool

/-- The fixed `ActionContext` the loop builds for each execution
(`TechnicalParameters(pixel_size=0.1, time_resolution=0.1, ...)`). -/
def MicroscopyLoop.mkContext (state : MicroscopeState) : ActionContext :=
  { microscope_state := state,
    technical_params :=
      { pixel_size := 1/10, time_resolution := 1/10 } }

/-- Outcome of running the loop: normal return of the perception, the
`ValueError` raised on a failed validation, the `RuntimeError` raised on
a failed execution (each carrying the perception the loop held at that
point), or exhaustion of the fuel bounding the source's unbounded
`while True`. -/
inductive LoopOutcome where
  | finished (perception : Perception)
  | invalidAction (action : MicroscopeAction) (perception : Perception)
  | actionFailed (error : Option String) (perception : Perception)
  | outOfFuel (perception : Perception)
deriving DecidableEq, Repr

/-- `MicroscopyLoop.run`, parametric in the strategy and in the executor
dispatched on `action.execute`.  Returns the list of actions whose
`execute` was called, in order, together with the outcome.  Step order
follows the source: decide, validate, execute, check failure, predict
state, fold observation, check completion. -/
def MicroscopyLoop.run {σ : Type} (strategy : StrategyFn σ)
    (execute : MicroscopeAction → ActionContext → ActionResult) :
    ℕ → σ → MicroscopeState → Perception → List MicroscopeAction × LoopOutcome
  | 0, _, _, perception => ([], .outOfFuel perception)
  | fuel + 1, st, state, perception =>
    match strategy.next_action st perception with
    | (none, _) => ([], .finished perception)
    | (some action, st₁) =>
      if state.can_execute action = false then
        ([], .invalidAction action perception)
      else
        let result := execute action (MicroscopyLoop.mkContext state)
        if result.status = .failed then
          ([action], .actionFailed result.error perception)
        else
          let state₁ := action.predict_state state
          let perception₁ :=
            match result.data_observation with
            | some observation => perception.update observation
            | none => perception
          if strategy.is_complete st₁ perception₁ then
            ([action], .finished perception₁)
          else
            let rest := MicroscopyLoop.run strategy execute fuel st₁ state₁ perception₁
            (action :: rest.1, rest.2)

/-! ## Composite strategy (`microscopy_strategies.py`) -/

/-- A sub-strategy as seen by `CompositeStrategy`: its current mutable
state together with its `next_action` step function (state passing models
the in-place mutation of the Python strategy object). -/
structure SubStrategy (σ : Type) where
  state : σ
  next_action : σ → Perception → Option MicroscopeAction × σ

/-- Strategy that combines multiple sub-strategies (`CompositeStrategy`):
a list of sub-strategies and the index of the currently active one. -/
structure CompositeStrategy (σ : Type) where
  strategies : List (SubStrategy σ)
  current_index : ℕ := 0

/-- The `while self.current_index < len(self.strategies)` loop of
`CompositeStrategy.next_action`: ask the strategy at `idx`; if it returns
an action, stop there; otherwise store its mutated state, advance and
continue.  Returns the emitted action (if any), the updated strategy
list, and the final index. -/
def compositeGo {σ : Type} (p : Perception) (strategies : List (SubStrategy σ)) (idx : ℕ) :
    Option MicroscopeAction × List (SubStrategy σ) × ℕ :=
  if h : idx < strategies.length then
    let s := strategies[idx]
    let r := s.next_action s.state p
    let strategies₁ := strategies.set idx { s with state := r.2 }
    match r.1 with
    | some action => (some action, strategies₁, idx)
    | none => compositeGo p strategies₁ (idx + 1)
  else
    (none, strategies, idx)
termination_by strategies.length - idx
decreasing_by simp only [strategies₁, List.length_set]; omega

/-- `CompositeStrategy.next_action`. -/
def CompositeStrategy.next_action {σ : Type} (c : CompositeStrategy σ) (p : Perception) :
    Option MicroscopeAction × CompositeStrategy σ :=
  let r := compositeGo p c.strategies c.current_index
  (r.1, { strategies := r.2.1, current_index := r.2.2 })

/-- `CompositeStrategy.is_complete`: `self.current_index >= len(self.strategies)`. -/
def CompositeStrategy.is_complete {σ : Type} (c : CompositeStrategy σ) (_p : Perception) : Bool :=
  decide (c.strategies.length ≤ c.current_index)

/-- Repeatedly call `next_action` `n` times against a fixed perception,
collecting the emitted actions in order together with the final composite
state. -/
def CompositeStrategy.runCalls {σ : Type} (p : Perception) :
    ℕ → CompositeStrategy σ → List MicroscopeAction × CompositeStrategy σ
  | 0, c => ([], c)
  | n + 1, c =>
    let r := c.next_action p
    let rest := CompositeStrategy.runCalls p n r.2
    (r.1.toList ++ rest.1, rest.2)

/-- A sub-strategy that yields the actions of `acts` one per call and the
`None` sentinel on every later call (the shape "yields exactly
`acts.length` actions before signaling no-further-action"). -/
def listSub (acts : List MicroscopeAction) : SubStrategy ℕ :=
  { state := 0, next_action := fun n _ => (acts[n]?, n + 1) }

/-! ## Map-sample strategy (`microscopy_strategies.py`) -/

/-- Python `int(q)`: truncation toward zero. -/
def pyInt (q : ℚ) : ℤ := if 0 ≤ q then ⌊q⌋ else ⌈q⌉

/-- Python `range(a, b)` over integers. -/
def pyRange (a b : ℤ) : List ℤ := (List.range (b - a).toNat).map (fun k : ℕ => a + (k : ℤ))

/-- `MapSampleStrategy._generate_positions`: `x_steps = int(width /
resolution)` (same for `y`), then a nested `for i in
range(-x_steps//2, x_steps//2 + 1)` / `for j in range(-y_steps//2,
y_steps//2 + 1)` appending `center + (i*resolution, j*resolution, 0)`.
Python `//` is floor division and unary minus binds tighter, so the lower
bound is `(-x_steps).fdiv 2`. -/
def MapSampleStrategy.generate_positions (center : StagePosition) (size : ℚ × ℚ)
    (resolution : ℚ) : List StagePosition :=
  let x_steps : ℤ := pyInt (size.1 / resolution)
  let y_steps : ℤ := pyInt (size.2 / resolution)
  (pyRange ((-x_steps).fdiv 2) (x_steps.fdiv 2 + 1)).flatMap (fun i : ℤ =>
    (pyRange ((-y_steps).fdiv 2) (y_steps.fdiv 2 + 1)).map (fun j : ℤ =>
      { x := center.x + (i : ℚ) * resolution, y := center.y + (j : ℚ) * resolution,
        z := center.z }))

/-! ## Multi-channel acquisition strategy (`microscopy_strategies.py`) -/

/-- Strategy for multi-channel acquisition
(`MultiChannelAcquisitionStrategy`): a channel → exposure dict, the
target position, and the set of acquired channels (initially empty; the
source never adds to it). -/
structure MultiChannelAcquisitionStrategy where
  channels : PyDict String ℚ
  position : StagePosition
  acquired : List String := []
deriving DecidableEq, Repr

/-- `MultiChannelAcquisitionStrategy._at_position`: read
`perception.spatial_context['current_position']`; `None` is falsy, and a
recorded position is compared to the target within `0.1` per axis (the
stored triple's components are the `x`, `y`, `z` attributes read by the
source). -/
def MultiChannelAcquisitionStrategy.at_position (s : MultiChannelAcquisitionStrategy)
    (perception : Perception) : Bool :=
  match perception.spatial_context.get? "current_position" with
  | none => false
  | some current =>
      decide (|current.1 - s.position.x| < 1/10 ∧ |current.2.1 - s.position.y| < 1/10 ∧
              |current.2.2 - s.position.z| < 1/10)

/-- `MultiChannelAcquisitionStrategy.next_action`: move to the position
unless already there, else the first channel (in dict order) not yet in
`acquired`, else the `None` sentinel. -/
def MultiChannelAcquisitionStrategy.next_action (s : MultiChannelAcquisitionStrategy)
    (perception : Perception) : Option MicroscopeAction :=
  if s.at_position perception = false then
    some (.moveStageTo s.position)
  else
    match s.channels.find? (fun kv => !(s.acquired.contains kv.1)) with
    | some kv => some (.acquireImage kv.2 kv.1)
    | none => none

/-- `MultiChannelAcquisitionStrategy.is_complete`:
`len(self.acquired) == len(self.channels)`. -/
def MultiChannelAcquisitionStrategy.is_complete (s : MultiChannelAcquisitionStrategy)
    (_perception : Perception) : Bool :=
  decide (s.acquired.length = s.channels.length)

/-- The strategy packaged for the loop; `next_action` mutates nothing in
the source (in particular it never adds to `acquired`). -/
def MultiChannelAcquisitionStrategy.strategyFn : StrategyFn MultiChannelAcquisitionStrategy :=
  { next_action := fun s p => (s.next_action p, s),
    is_complete := fun s p => s.is_complete p }

/-! ## Find-cells strategy (`microscopy_loop.py`) -/

/-- Types of biological entities (`EntityType` enum of `domain/biology.py`). -/
inductive EntityType where
  | cell
  | nucleus
  | membrane
  | organelle
  | protein_cluster
deriving DecidableEq, Repr

/-- Python `max(xs, key=f)`: the first element attaining the maximum of
`f` (later elements replace the current best only on a strictly greater
key). -/
def pyMaxByKey {α : Type} (key : α → ℚ) : List α → Option α
  | [] => none
  | x :: rest => some (rest.foldl (fun best y => if key y > key best then y else best) x)

/-- Strategy for finding cells (`FindCellsStrategy`): the searched type,
the minimum count, and the precomputed search grid —
`_generate_search_grid` in the source returns `[]`, so the grid starts
empty. -/
structure FindCellsStrategy where
  cell_type : EntityType
  min_count : ℕ := 10
  search_positions : List StagePosition := []
deriving DecidableEq, Repr

/-- `FindCellsStrategy._generate_search_grid`: the source's stub returns
the empty list for both the initial and the expanded grid. -/
def FindCellsStrategy.generate_search_grid (_expanded : Bool := false) : List StagePosition :=
  []

/-- Result of one `FindCellsStrategy.next_action` call: an action with
the mutated strategy, the `None` sentinel, divergence (the source
re-generates an empty grid and recurses forever), or a raised `KeyError`
(a temporal / spatial lookup on a missing id). -/
inductive FindCellsStep where
  | action (a : MicroscopeAction) (s : FindCellsStrategy)
  | noAction (s : FindCellsStrategy)
  | divergent
  | keyError
deriving DecidableEq, Repr

/-- `FindCellsStrategy.next_action`.  Below `min_count` known entities it
pops the next search position (with an empty grid the source regenerates
an empty grid and recurses, never returning — `divergent`).  Otherwise it
collects the ids with confidence `< 0.8` and, if any, moves to the
spatial position of `max(low_confidence, key=temporal_context[·])` — the
id with the greatest last-observed timestamp, first one kept on ties. -/
def FindCellsStrategy.next_action (s : FindCellsStrategy) (perception : Perception) :
    FindCellsStep :=
  if perception.entities.length < s.min_count then
    match s.search_positions with
    | next_pos :: rest => .action (.moveStageTo next_pos) { s with search_positions := rest }
    | [] => .divergent
  else
    let low_confidence := (perception.confidence.filter (fun kv => kv.2 < 4/5)).map Prod.fst
    match low_confidence with
    | [] => .noAction s
    | _ :: _ =>
      if low_confidence.all (fun x => (perception.temporal_context.get? x).isSome) = false then
        .keyError
      else
        match pyMaxByKey (fun x => (perception.temporal_context.get? x).getD 0) low_confidence with
        | none => .noAction s
        | some entity_id =>
          match perception.spatial_context.get? entity_id with
          | some pos => .action (.moveStageTo ⟨pos.1, pos.2.1, pos.2.2⟩) s
          | none => .keyError

/-- `FindCellsStrategy.is_complete`: at least `min_count` ids with
confidence `>= 0.8`. -/
def FindCellsStrategy.is_complete (s : FindCellsStrategy) (perception : Perception) : Bool :=
  decide (s.min_count ≤ (perception.confidence.filter (fun kv => 4/5 ≤ kv.2)).length)

/-! ## Two-stage autofocus search (`hardware/plans.py`) -/

/-- `np.arange(start, stop, step)` for positive step: the values
`start + k*step` for `0 ≤ k < ⌈(stop - start)/step⌉`. -/
def np_arange (start stop step : ℚ) : List ℚ :=
  (List.range (⌈(stop - start) / step⌉).toNat).map (fun k : ℕ => start + (k : ℚ) * step)

/-- The z positions sampled by `_focus_search(center_z, range_um, step)`:
`np.arange(start_z, end_z + step, step)` with `start_z = center_z -
range_um/2` and `end_z = center_z + range_um/2`. -/
def focusSearchSamples (center_z range_um step : ℚ) : List ℚ :=
  np_arange (center_z - range_um / 2) (center_z + range_um / 2 + step) step

/-- `_focus_search` of `hardware/plans.py`, with the focus score of the
image acquired at `z` abstracted as an external function `score z`:
starting from `best_z = center_z`, `best_score = 0`, each sampled `z`
replaces the best on a strictly greater score. -/
def focus_search (score : ℚ → ℚ) (center_z range_um step : ℚ) : ℚ :=
  ((focusSearchSamples center_z range_um step).foldl
    (fun best z => if score z > best.2 then (z, score z) else best)
    (center_z, 0)).1

/-- `find_sample_surface` of `hardware/plans.py`: coarse sweep over
`search_range` at `coarse_step` from the starting z, then a fine sweep
over `fine_range = coarse_step * 2` at `fine_step` around the coarse
best; the final `bps.mov(focus, best_z_fine)` leaves the focus at the
returned value. -/
def find_sample_surface (score : ℚ → ℚ) (start_z : ℚ) (search_range : ℚ := 100)
    (coarse_step : ℚ := 10) (fine_step : ℚ := 1) : ℚ :=
  let best_z_coarse := focus_search score start_z search_range coarse_step
  let fine_range := coarse_step * 2
  let best_z_fine := focus_search score best_z_coarse fine_range fine_step
  best_z_fine

/-- Following the spec's words, the selection rule claimed for each
sweep: "keep the z with maximum score … ties keep the first maximum
encountered", i.e. the first sampled z whose score is greatest.  Stated
separately from the code so the two can be compared. -/
def firstArgmax (zs : List ℚ) (score : ℚ → ℚ) : Option ℚ :=
  zs.find? (fun z => zs.all (fun w => decide (score w ≤ score z)))

/-! ## Helper lemmas about the dictionary model -/

theorem PyDict.get?_eq_none_iff {K V : Type} [DecidableEq K] (d : PyDict K V) (k : K) :
    d.get? k = none ↔ k ∉ d.keys := by
  induction d with
  | nil => simp [PyDict.get?, PyDict.keys]
  | cons kv rest ih =>
    obtain ⟨k₁, v⟩ := kv
    simp only [PyDict.get?, PyDict.keys, List.map_cons, List.mem_cons]
    by_cases h : k₁ = k
    · subst h
      simp
    · have h₂ : ¬ (k = k₁) := fun h₂ => h h₂.symm
      rw [if_neg h, ih]
      simp only [PyDict.keys]
      tauto

theorem PyDict.get?_isSome_iff {K V : Type} [DecidableEq K] (d : PyDict K V) (k : K) :
    (d.get? k).isSome = true ↔ k ∈ d.keys := by
  rw [← Decidable.not_iff_not, ← PyDict.get?_eq_none_iff d k]
  cases d.get? k <;> simp

theorem PyDict.keys_set {K V : Type} [DecidableEq K] (d : PyDict K V) (k : K) (v : V) :
    (d.set k v).keys = if k ∈ d.keys then d.keys else d.keys ++ [k] := by
  induction d with
  | nil => simp [PyDict.set, PyDict.keys]
  | cons kv rest ih =>
    obtain ⟨k₁, v₁⟩ := kv
    by_cases h : k₁ = k
    · subst h
      simp [PyDict.set, PyDict.keys]
    · have h₂ : ¬ (k = k₁) := fun h₂ => h h₂.symm
      simp only [PyDict.keys] at ih
      by_cases hm : k ∈ rest.map Prod.fst
      · simp [PyDict.set, PyDict.keys, h, h₂, hm, ih]
      · simp [PyDict.set, PyDict.keys, h, h₂, hm, ih]

theorem PyDict.mem_keys_set {K V : Type} [DecidableEq K] (d : PyDict K V) (k a : K) (v : V) :
    a ∈ (d.set k v).keys ↔ a ∈ d.keys ∨ a = k := by
  rw [PyDict.keys_set]
  split <;> rename_i h
  · constructor
    · exact fun h₁ => Or.inl h₁
    · rintro (h₁ | rfl)
      · exact h₁
      · exact h
  · simp

theorem PyDict.keys_set_of_mem {K V : Type} [DecidableEq K] (d : PyDict K V) (k : K) (v : V)
    (h : k ∈ d.keys) : (d.set k v).keys = d.keys := by
  rw [PyDict.keys_set]; simp [h]

theorem PyDict.get?_set_self {K V : Type} [DecidableEq K] (d : PyDict K V) (k : K) (v : V) :
    (d.set k v).get? k = some v := by
  induction d with
  | nil => simp [PyDict.set, PyDict.get?]
  | cons kv rest ih =>
    obtain ⟨k₁, v₁⟩ := kv
    by_cases h : k₁ = k <;> simp [PyDict.set, PyDict.get?, h, ih]

theorem PyDict.merge_cons {K V : Type} [DecidableEq K] (d : PyDict K V) (kv : K × V)
    (e : PyDict K V) : d.merge (kv :: e) = (d.set kv.1 kv.2).merge e := by
  simp [PyDict.merge]

theorem PyDict.mem_keys_merge {K V : Type} [DecidableEq K] (d e : PyDict K V) (a : K) :
    a ∈ (d.merge e).keys ↔ a ∈ d.keys ∨ a ∈ e.keys := by
  induction e generalizing d with
  | nil => simp [PyDict.merge, PyDict.keys]
  | cons kv rest ih =>
    rw [PyDict.merge_cons, ih, PyDict.mem_keys_set]
    simp only [PyDict.keys, List.map_cons, List.mem_cons]
    tauto

theorem PyDict.keys_merge_of_subset {K V : Type} [DecidableEq K] (d e : PyDict K V)
    (h : ∀ a ∈ e.keys, a ∈ d.keys) : (d.merge e).keys = d.keys := by
  induction e generalizing d with
  | nil => simp [PyDict.merge]
  | cons kv rest ih =>
    rw [PyDict.merge_cons]
    have hk : kv.1 ∈ d.keys := h kv.1 (by simp [PyDict.keys])
    rw [ih]
    · exact PyDict.keys_set_of_mem d kv.1 kv.2 hk
    · intro a ha
      rw [PyDict.mem_keys_set]
      refine Or.inl (h a ?_)
      simp only [PyDict.keys, List.map_cons, List.mem_cons]
      right
      simpa only [PyDict.keys] using ha

/-! ## C3 — frame property of `MoveStageTo.predict_state` -/

/-- C3: for every microscope state and target, `MoveStageTo(target)
.predict_state(state)` yields a state whose `stage` equals the target
while `objective`, `light_path` and `temperature` are unchanged.  The
embedding is a pure function over state values (the source builds the
result on a copy and assigns only whole attributes of that copy), so the
original `state` value is untouched by the call. -/
theorem moveStageTo_predict_state_frame (state : MicroscopeState) (target : StagePosition) :
    ((MicroscopeAction.moveStageTo target).predict_state state).stage = target ∧
    ((MicroscopeAction.moveStageTo target).predict_state state).objective = state.objective ∧
    ((MicroscopeAction.moveStageTo target).predict_state state).light_path = state.light_path ∧
    ((MicroscopeAction.moveStageTo target).predict_state state).temperature = state.temperature := by
  simp [MicroscopeAction.predict_state, MicroscopeState.copy]

/-! ## C2 — the `AcquireImage` validation gate -/

/-- C2: `AcquireImage(exposure, channel).validate(state)` holds exactly
when the light-path source equals the channel and `0 < exposure ≤ 1000`;
and whenever the strategy hands the loop an `AcquireImage` for `"FITC"`
while the state's source is `"DAPI"`, `MicroscopyLoop.run` aborts at once
with the invalid-action error, with an empty executed-action trace — so
that action's `execute` is never called. -/
theorem acquireImage_validate_gate :
    (∀ (state : MicroscopeState) (exposure : ℚ) (channel : String),
      (MicroscopeAction.acquireImage exposure channel).validate state = true ↔
        (state.light_path.source = channel ∧ 0 < exposure ∧ exposure ≤ 1000)) ∧
    (∀ (σ : Type) (strategy : StrategyFn σ)
      (execute : MicroscopeAction → ActionContext → ActionResult) (fuel : ℕ) (st st₁ : σ)
      (state : MicroscopeState) (perception : Perception) (exposure : ℚ),
      state.light_path.source = "DAPI" →
      strategy.next_action st perception = (some (.acquireImage exposure "FITC"), st₁) →
      MicroscopyLoop.run strategy execute (fuel + 1) st state perception =
        ([], .invalidAction (.acquireImage exposure "FITC") perception)) := by
  constructor
  · intro state exposure channel
    simp [MicroscopeAction.validate]
  · intro σ strategy execute fuel st st₁ state perception exposure hsrc hnext
    rw [MicroscopyLoop.run, hnext]
    have hval : (MicroscopeAction.acquireImage exposure "FITC").validate state = false := by
      simp [MicroscopeAction.validate, hsrc]
    simp [MicroscopeState.can_execute, hval]

/-- A microscope state whose light path source is `"DAPI"`. -/
def dapiState : MicroscopeState :=
  { objective := { magnification := 60, numerical_aperture := 7/5, working_distance := 17/100,
                   is_air := false },
    stage := { x := 0, y := 0, z := 0 },
    light_path := { source := "DAPI", intensity := 50, exposure := 100 },
    temperature := 37 }

/-- A strategy that always proposes `AcquireImage(50.0, "FITC")`. -/
def constFitcStrategy : StrategyFn Unit :=
  { next_action := fun _ _ => (some (.acquireImage 50 "FITC"), ()),
    is_complete := fun _ _ => false }

/-- Witness for C2 at a concrete input: with the `"DAPI"` state and a
strategy proposing `AcquireImage(50.0, "FITC")`, the loop aborts with the
invalid-action outcome and executes nothing. -/
theorem acquireImage_validate_gate_witness :
    MicroscopyLoop.run constFitcStrategy defaultExecute 1 () dapiState {} =
      ([], .invalidAction (.acquireImage 50 "FITC") {}) :=
  acquireImage_validate_gate.2 Unit constFitcStrategy defaultExecute 0 () () dapiState {} 50
    rfl rfl

theorem PyDict.mem_keys_of_get?_eq_some {K V : Type} [DecidableEq K] (d : PyDict K V) (k : K)
    (v : V) (h : d.get? k = some v) : k ∈ d.keys := by
  rw [← PyDict.get?_isSome_iff, h]
  rfl

/-! ## C10 — `Perception.update` only grows, and never touches `entities` -/

/-- C10: `Perception.update` never removes an existing key from any of
the five maps; the key list of `entities` is left exactly as it was (the
new-entity branch is `pass`, the known-entity branch rewrites an existing
key); when the id is unknown `entities` is untouched entirely; and after
updating a fresh `Perception` with an observation, `confidence` and
`temporal_context` hold the id while `entities` stays empty. -/
theorem perception_update_never_removes :
    (∀ (p : Perception) (o : EntityObservation) (k : String),
      (k ∈ p.entities.keys → k ∈ (p.update o).entities.keys) ∧
      (k ∈ p.confidence.keys → k ∈ (p.update o).confidence.keys) ∧
      (k ∈ p.spatial_context.keys → k ∈ (p.update o).spatial_context.keys) ∧
      (k ∈ p.temporal_context.keys → k ∈ (p.update o).temporal_context.keys) ∧
      (k ∈ p.quality_metrics.keys → k ∈ (p.update o).quality_metrics.keys)) ∧
    (∀ (p : Perception) (o : EntityObservation),
      (p.update o).entities.keys = p.entities.keys) ∧
    (∀ (p : Perception) (o : EntityObservation),
      o.entity_id ∉ p.entities.keys → (p.update o).entities = p.entities) ∧
    (∀ (o : EntityObservation),
      o.entity_id ∈ (Perception.update {} o).confidence.keys ∧
      o.entity_id ∈ (Perception.update {} o).temporal_context.keys ∧
      (Perception.update {} o).entities = []) := by
  have hent : ∀ (p : Perception) (o : EntityObservation),
      (p.update o).entities.keys = p.entities.keys := by
    intro p o
    rw [Perception.update]
    rcases hg : p.entities.get? o.entity_id with _ | e
    · simp [hg]
    · simp only [hg]
      exact PyDict.keys_set_of_mem _ _ _ (PyDict.mem_keys_of_get?_eq_some _ _ _ hg)
  refine ⟨?_, hent, ?_, ?_⟩
  · intro p o k
    refine ⟨?_, ?_, ?_, ?_, ?_⟩
    · intro hk; rw [hent]; exact hk
    · intro hk
      rw [Perception.update]
      simp only [PyDict.mem_keys_set]
      exact Or.inl hk
    · intro hk
      rw [Perception.update]
      rcases o.position with _ | pos
      · simpa using hk
      · simp only [PyDict.mem_keys_set]
        exact Or.inl hk
    · intro hk
      rw [Perception.update]
      simp only [PyDict.mem_keys_set]
      exact Or.inl hk
    · intro hk
      rw [Perception.update]
      simp only [PyDict.mem_keys_merge]
      exact Or.inl hk
  · intro p o hk
    rw [Perception.update]
    rcases hg : p.entities.get? o.entity_id with _ | e
    · simp [hg]
    · exact absurd (PyDict.mem_keys_of_get?_eq_some _ _ _ hg) hk
  · intro o
    refine ⟨?_, ?_, ?_⟩
    · rw [Perception.update]
      simp [PyDict.mem_keys_set]
    · rw [Perception.update]
      simp [PyDict.mem_keys_set]
    · rw [Perception.update]
      simp [PyDict.get?]

/-- Witness for C10 at a concrete input: updating the empty perception
with a minimal observation for `"cell_001"` records the id in
`confidence` and `temporal_context`, keeps `entities` empty, and an
absent id leaves `entities` untouched. -/
theorem perception_update_never_removes_witness :
    "cell_001" ∈ (Perception.update {}
        { entity_id := "cell_001", timestamp := 1 }).confidence.keys ∧
    (Perception.update {} { entity_id := "cell_001", timestamp := 1 }).entities = [] :=
  ⟨(perception_update_never_removes.2.2.2 { entity_id := "cell_001", timestamp := 1 }).1,
   (perception_update_never_removes.2.2.2 { entity_id := "cell_001", timestamp := 1 }).2.2⟩

/-! ## C7 — overwrite semantics of `Perception.update` and key stability -/

/-- The key list of `entities` is never changed by an update (shared
helper: the known-id branch rewrites an existing key, the new-id branch
is `pass`). -/
theorem Perception.update_entities_keys (p : Perception) (o : EntityObservation) :
    (p.update o).entities.keys = p.entities.keys := by
  rw [Perception.update]
  rcases hg : p.entities.get? o.entity_id with _ | e
  · simp [hg]
  · simp only [hg]
    exact PyDict.keys_set_of_mem _ _ _ (PyDict.mem_keys_of_get?_eq_some _ _ _ hg)

/-- First observation of entity `cell_001`: position recorded, one
quality metric (`detection_confidence`). -/
def obs71 : EntityObservation :=
  { entity_id := "cell_001", timestamp := 100, position := some (100, 200, 50),
    quality_metrics := [("detection_confidence", 9/10)] }

/-- Second observation of the same entity with a later timestamp, whose
quality metrics bring a key (`signal_to_noise`) not seen before. -/
def obs72 : EntityObservation :=
  { entity_id := "cell_001", timestamp := 200, position := some (100, 210, 50),
    quality_metrics := [("detection_confidence", 7/10), ("signal_to_noise", 3)] }

/-- Second observation of the same entity with a later timestamp whose
quality-metric keys all already occur. -/
def obs73 : EntityObservation :=
  { entity_id := "cell_001", timestamp := 200, position := some (100, 210, 50),
    quality_metrics := [("detection_confidence", 7/10)] }

/-- Counterexample to C7 as stated: updating a second time for the same
id with a later timestamp does not, in general, leave the key set of
every map unchanged — a second observation carrying a fresh
quality-metric key (here `signal_to_noise`) grows `quality_metrics`. -/
theorem perception_update_keys_cex :
    obs72.entity_id = obs71.entity_id ∧ obs71.timestamp < obs72.timestamp ∧
    ¬ (((Perception.update {} obs71).update obs72).quality_metrics.keys =
        (Perception.update {} obs71).quality_metrics.keys) := by
  refine ⟨rfl, by decide, ?_⟩
  simp [Perception.update, obs71, obs72, PyDict.merge, PyDict.set, PyDict.get?, PyDict.keys]

/-- C7, amended: `update` always overwrites `confidence[id]` with the
observation's `detection_confidence` (default `0.5`), sets
`spatial_context[id]` to the position when one is present, sets
`temporal_context[id]` to the timestamp, and merges the quality metrics;
and a further update for an id already present in `confidence` and
`temporal_context` leaves the key set of every map unchanged — provided
it carries a position only if one is already recorded for that id and
introduces no quality-metric key not already present. -/
theorem perception_update_overwrite_and_keys :
    (∀ (p : Perception) (o : EntityObservation),
      (p.update o).confidence.get? o.entity_id =
        some ((o.quality_metrics.get? "detection_confidence").getD (1/2)) ∧
      (∀ pos, o.position = some pos →
        (p.update o).spatial_context.get? o.entity_id = some pos) ∧
      (p.update o).temporal_context.get? o.entity_id = some o.timestamp ∧
      (p.update o).quality_metrics = p.quality_metrics.merge o.quality_metrics) ∧
    (∀ (p : Perception) (o : EntityObservation),
      o.entity_id ∈ p.confidence.keys →
      o.entity_id ∈ p.temporal_context.keys →
      (o.position.isSome = true → o.entity_id ∈ p.spatial_context.keys) →
      (∀ k ∈ o.quality_metrics.keys, k ∈ p.quality_metrics.keys) →
      ((p.update o).entities.keys = p.entities.keys ∧
       (p.update o).confidence.keys = p.confidence.keys ∧
       (p.update o).spatial_context.keys = p.spatial_context.keys ∧
       (p.update o).temporal_context.keys = p.temporal_context.keys ∧
       (p.update o).quality_metrics.keys = p.quality_metrics.keys)) := by
  constructor
  · intro p o
    refine ⟨?_, ?_, ?_, ?_⟩
    · rw [Perception.update]
      exact PyDict.get?_set_self _ _ _
    · intro pos hpos
      rw [Perception.update]
      simp only [hpos]
      exact PyDict.get?_set_self _ _ _
    · rw [Perception.update]
      exact PyDict.get?_set_self _ _ _
    · rw [Perception.update]
  · intro p o hc ht hs hq
    refine ⟨Perception.update_entities_keys p o, ?_, ?_, ?_, ?_⟩
    · rw [Perception.update]
      exact PyDict.keys_set_of_mem _ _ _ hc
    · rw [Perception.update]
      rcases hpos : o.position with _ | pos
      · rfl
      · exact PyDict.keys_set_of_mem _ _ _ (hs (by rw [hpos]; rfl))
    · rw [Perception.update]
      exact PyDict.keys_set_of_mem _ _ _ ht
    · rw [Perception.update]
      exact PyDict.keys_merge_of_subset _ _ hq

/-- Witness for C7 (amended) at a concrete input: the second update of
`cell_001` with `obs73` (later timestamp, no new quality key, position
already recorded) leaves the key set of every map of the perception
unchanged. -/
theorem perception_update_overwrite_and_keys_witness :
    ((Perception.update {} obs71).update obs73).confidence.keys =
      (Perception.update {} obs71).confidence.keys ∧
    ((Perception.update {} obs71).update obs73).temporal_context.keys =
      (Perception.update {} obs71).temporal_context.keys :=
  ⟨(perception_update_overwrite_and_keys.2 (Perception.update {} obs71) obs73
      (by decide) (by decide) (by decide) (by decide)).2.1,
   (perception_update_overwrite_and_keys.2 (Perception.update {} obs71) obs73
      (by decide) (by decide) (by decide) (by decide)).2.2.2.1⟩

/-! ## C4 — a failed execution aborts the run, perception intact -/

/-- C4: whenever the strategy proposes an action that validates and whose
execution returns a `Failed` result, the loop stops at that very
iteration: the failing action is executed exactly once (no retry at the
loop layer), the outcome carries that result's error message, and the
perception returned with the abort is exactly the perception the loop
held entering the iteration — every observation folded in before the
failure is preserved and nothing is removed or reset.  Moreover any run
that ends in `actionFailed` has an executed-action trace ending at the
failing action. -/
theorem run_aborts_on_failed_action :
    (∀ (σ : Type) (strategy : StrategyFn σ)
      (execute : MicroscopeAction → ActionContext → ActionResult) (fuel : ℕ) (st st₁ : σ)
      (state : MicroscopeState) (perception : Perception) (action : MicroscopeAction),
      strategy.next_action st perception = (some action, st₁) →
      action.validate state = true →
      (execute action (MicroscopyLoop.mkContext state)).status = .failed →
      MicroscopyLoop.run strategy execute (fuel + 1) st state perception =
        ([action],
         .actionFailed (execute action (MicroscopyLoop.mkContext state)).error perception)) ∧
    (∀ (σ : Type) (strategy : StrategyFn σ)
      (execute : MicroscopeAction → ActionContext → ActionResult) (fuel : ℕ) (st : σ)
      (state : MicroscopeState) (perception : Perception) (tr : List MicroscopeAction)
      (err : Option String) (pa : Perception),
      MicroscopyLoop.run strategy execute fuel st state perception =
        (tr, .actionFailed err pa) →
      ∃ pre a, tr = pre ++ [a]) := by
  constructor
  · intro σ strategy execute fuel st st₁ state perception action hnext hval hfail
    rw [MicroscopyLoop.run, hnext]
    simp [MicroscopeState.can_execute, hval, hfail]
  · intro σ strategy execute fuel
    induction fuel with
    | zero =>
      intro st state perception tr err pa h
      rw [MicroscopyLoop.run] at h
      exact absurd (congrArg Prod.snd h) (by simp)
    | succ n ih =>
      intro st state perception tr err pa h
      rw [MicroscopyLoop.run] at h
      rcases hnext : strategy.next_action st perception with ⟨oa, st₁⟩
      rw [hnext] at h
      simp only [] at h
      cases oa with
      | none => exact absurd (congrArg Prod.snd h) (by simp)
      | some action =>
        simp only [] at h
        by_cases hval : state.can_execute action = false
        · rw [if_pos hval] at h
          exact absurd (congrArg Prod.snd h) (by simp)
        · rw [if_neg hval] at h
          by_cases hfail : (execute action (MicroscopyLoop.mkContext state)).status = .failed
          · rw [if_pos hfail] at h
            exact ⟨[], action, (congrArg Prod.fst h).symm⟩
          · rw [if_neg hfail] at h
            by_cases hdone : (strategy.is_complete st₁
                (match (execute action (MicroscopyLoop.mkContext state)).data_observation with
                 | some observation => perception.update observation
                 | none => perception)) = true
            · rw [if_pos hdone] at h
              exact absurd (congrArg Prod.snd h) (by simp)
            · rw [if_neg hdone] at h
              generalize (match (execute action (MicroscopyLoop.mkContext state)).data_observation
                  with
                | some observation => perception.update observation
                | none => perception) = q at h
              have h₁ := congrArg Prod.fst h
              have h₂ := congrArg Prod.snd h
              simp only at h₁ h₂
              obtain ⟨pre, a, hpre⟩ := ih st₁ (action.predict_state state) q
                ((MicroscopyLoop.run strategy execute n st₁ (action.predict_state state) q).1)
                err pa (by rw [← h₂])
              exact ⟨action :: pre, a, by rw [← h₁, hpre]; rfl⟩

/-- A strategy that always proposes `AutoFocus` and never completes. -/
def constFocusStrategy : StrategyFn Unit :=
  { next_action := fun _ _ => (some (.autoFocus 10 10), ()),
    is_complete := fun _ _ => false }

/-- An executor that fails every action with a fixed hardware error. -/
def failingExecute : MicroscopeAction → ActionContext → ActionResult :=
  fun _ _ => { status := .failed, error := some "hardware fault" }

/-- Witness for C4 at a concrete input: with an always-failing executor
the run aborts on the first action, carrying its error message and the
untouched initial perception. -/
theorem run_aborts_on_failed_action_witness :
    MicroscopyLoop.run constFocusStrategy failingExecute 5 () dapiState {} =
      ([.autoFocus 10 10], .actionFailed (some "hardware fault") {}) :=
  run_aborts_on_failed_action.1 Unit constFocusStrategy failingExecute 4 () () dapiState {}
    (.autoFocus 10 10) rfl rfl rfl

/-! ## C1 — the end-to-end multi-channel scenario never acquires -/

/-- The two-channel map `{"DAPI": 50.0, "FITC": 100.0}` of the spec's
end-to-end scenario. -/
def mcChannels : PyDict String ℚ := [("DAPI", 50), ("FITC", 100)]

/-- `MultiChannelAcquisitionStrategy({"DAPI":50.0,"FITC":100.0},
position=(10,20,0))` as freshly constructed (`acquired` empty). -/
def mcStrategyState : MultiChannelAcquisitionStrategy :=
  { channels := mcChannels, position := { x := 10, y := 20, z := 0 } }

/-- C1 (showing the code bug): driving the fresh multi-channel strategy
through `MicroscopyLoop.run` with the source's own always-succeeding
executors, starting — as `MicroscopyLoop.__init__` does — from an empty
perception, issues `MoveStageTo((10,20,0))` at every single iteration,
for every fuel bound and from every initial state: no action result ever
carries an observation, so `spatial_context['current_position']` is
never written and `_at_position` stays false; no `AcquireImage` is ever
issued, `acquired` stays empty, `is_complete` stays false, and the run
never terminates (the outcome is `outOfFuel` with the perception still
empty, for every fuel). -/
theorem multiChannel_loop_never_acquires (fuel : ℕ) (state : MicroscopeState) :
    MicroscopyLoop.run MultiChannelAcquisitionStrategy.strategyFn defaultExecute fuel
        mcStrategyState state {} =
      (List.replicate fuel (.moveStageTo { x := 10, y := 20, z := 0 }), .outOfFuel {}) := by
  induction fuel generalizing state with
  | zero => rw [MicroscopyLoop.run]; rfl
  | succ n ih =>
    have hstep : MicroscopyLoop.run MultiChannelAcquisitionStrategy.strategyFn defaultExecute
        (n + 1) mcStrategyState state ({} : Perception) =
        ((MicroscopeAction.moveStageTo { x := 10, y := 20, z := 0 }) ::
          (MicroscopyLoop.run MultiChannelAcquisitionStrategy.strategyFn defaultExecute n
            mcStrategyState
            ((MicroscopeAction.moveStageTo { x := 10, y := 20, z := 0 }).predict_state state)
            ({} : Perception)).1,
         (MicroscopyLoop.run MultiChannelAcquisitionStrategy.strategyFn defaultExecute n
            mcStrategyState
            ((MicroscopeAction.moveStageTo { x := 10, y := 20, z := 0 }).predict_state state)
            ({} : Perception)).2) := rfl
    rw [hstep, ih]
    simp [List.replicate_succ]

/-! ## C5 — `MapSampleStrategy` grid generation -/

theorem pyRange_mem (a b x : ℤ) : x ∈ pyRange a b ↔ a ≤ x ∧ x < b := by
  simp only [pyRange, List.mem_map, List.mem_range]
  constructor
  · rintro ⟨k, hk, rfl⟩
    omega
  · intro h
    exact ⟨(x - a).toNat, by omega, by omega⟩

theorem pyInt_eq_floor (q : ℚ) (h : 0 ≤ q) : pyInt q = ⌊q⌋ := by
  simp [pyInt, h]

/-- C5: the grid rule.  For a positive resolution and nonnegative
extents, with `steps = ⌊w/r⌋` per axis, the generated positions are
exactly `center + (i*r, j*r, 0)` for all integer offsets `i, j` from
`(-steps)/2` to `steps/2` (floor division, inclusive); and for the
concrete instance `center=(0,0,0)`, `size=(100,100)`, `resolution=50`
the generated list has exactly 9 pairwise-distinct members, is symmetric
about the center, and contains the center. -/
theorem mapSample_grid_generation :
    (∀ (center : StagePosition) (w h r : ℚ), 0 < r → 0 ≤ w → 0 ≤ h →
      ∀ q : StagePosition,
        (q ∈ MapSampleStrategy.generate_positions center (w, h) r ↔
          ∃ i j : ℤ,
            (-⌊w / r⌋).fdiv 2 ≤ i ∧ i ≤ (⌊w / r⌋).fdiv 2 ∧
            (-⌊h / r⌋).fdiv 2 ≤ j ∧ j ≤ (⌊h / r⌋).fdiv 2 ∧
            q = { x := center.x + i * r, y := center.y + j * r, z := center.z })) ∧
    ((MapSampleStrategy.generate_positions { x := 0, y := 0, z := 0 } (100, 100) 50).length = 9 ∧
     (MapSampleStrategy.generate_positions { x := 0, y := 0, z := 0 } (100, 100) 50).Nodup ∧
     (∀ p ∈ MapSampleStrategy.generate_positions { x := 0, y := 0, z := 0 } (100, 100) 50,
        ({ x := -p.x, y := -p.y, z := p.z } : StagePosition) ∈
          MapSampleStrategy.generate_positions { x := 0, y := 0, z := 0 } (100, 100) 50) ∧
     ({ x := 0, y := 0, z := 0 } : StagePosition) ∈
       MapSampleStrategy.generate_positions { x := 0, y := 0, z := 0 } (100, 100) 50) := by
  have hgen : ∀ (center : StagePosition) (w h r : ℚ), 0 < r → 0 ≤ w → 0 ≤ h →
      ∀ q : StagePosition,
        (q ∈ MapSampleStrategy.generate_positions center (w, h) r ↔
          ∃ i j : ℤ,
            (-⌊w / r⌋).fdiv 2 ≤ i ∧ i ≤ (⌊w / r⌋).fdiv 2 ∧
            (-⌊h / r⌋).fdiv 2 ≤ j ∧ j ≤ (⌊h / r⌋).fdiv 2 ∧
            q = { x := center.x + i * r, y := center.y + j * r, z := center.z }) := by
    intro center w h r hr hw hh q
    have hwr : (0:ℚ) ≤ w / r := div_nonneg hw hr.le
    have hhr : (0:ℚ) ≤ h / r := div_nonneg hh hr.le
    rw [MapSampleStrategy.generate_positions]
    simp only [pyInt_eq_floor _ hwr, pyInt_eq_floor _ hhr, List.mem_flatMap, List.mem_map,
      pyRange_mem]
    constructor
    · rintro ⟨i, ⟨hi1, hi2⟩, j, ⟨hj1, hj2⟩, rfl⟩
      exact ⟨i, j, hi1, by omega, hj1, by omega, rfl⟩
    · rintro ⟨i, j, hi1, hi2, hj1, hj2, rfl⟩
      exact ⟨i, ⟨hi1, by omega⟩, j, ⟨hj1, by omega⟩, rfl⟩
  refine ⟨hgen, ?_⟩
  have hfloor : pyInt ((100:ℚ) / 50) = 2 := by
    rw [show ((100:ℚ) / 50) = ((2:ℤ) : ℚ) by norm_num, pyInt_eq_floor _ (by norm_num),
      Int.floor_intCast]
  have hrange : pyRange ((-(2:ℤ)).fdiv 2) ((2:ℤ).fdiv 2 + 1) = [-1, 0, 1] := by decide
  have hgrid : MapSampleStrategy.generate_positions { x := 0, y := 0, z := 0 } (100, 100) 50 =
      [{ x := -50, y := -50, z := 0 }, { x := -50, y := 0, z := 0 }, { x := -50, y := 50, z := 0 },
       { x := 0, y := -50, z := 0 }, { x := 0, y := 0, z := 0 }, { x := 0, y := 50, z := 0 },
       { x := 50, y := -50, z := 0 }, { x := 50, y := 0, z := 0 }, { x := 50, y := 50, z := 0 }] := by
    rw [MapSampleStrategy.generate_positions]
    simp only [hfloor, hrange]
    simp only [List.flatMap_cons, List.flatMap_nil, List.map_cons, List.map_nil, List.append_nil,
      List.cons_append, List.nil_append]
    norm_num [StagePosition.mk.injEq]
  rw [hgrid]
  refine ⟨rfl, ?_, ?_, ?_⟩
  · norm_num [List.nodup_cons, StagePosition.mk.injEq]
  · intro p hp
    fin_cases hp <;> norm_num [StagePosition.mk.injEq]
  · norm_num [StagePosition.mk.injEq]

/-- Witness for C5 (general rule) at a concrete input: the grid-rule
characterization instantiated at the example parameters and the center
point. -/
theorem mapSample_grid_generation_witness :
    ((0:ℚ) < 50 ∧ (0:ℚ) ≤ 100) ∧
    (({ x := 0, y := 0, z := 0 } : StagePosition) ∈
        MapSampleStrategy.generate_positions { x := 0, y := 0, z := 0 } (100, 100) 50 ↔
      ∃ i j : ℤ,
        (-⌊(100:ℚ) / 50⌋).fdiv 2 ≤ i ∧ i ≤ (⌊(100:ℚ) / 50⌋).fdiv 2 ∧
        (-⌊(100:ℚ) / 50⌋).fdiv 2 ≤ j ∧ j ≤ (⌊(100:ℚ) / 50⌋).fdiv 2 ∧
        ({ x := 0, y := 0, z := 0 } : StagePosition) =
          { x := (0:ℚ) + i * 50, y := (0:ℚ) + j * 50, z := 0 }) :=
  ⟨⟨by norm_num, by norm_num⟩,
   mapSample_grid_generation.1 { x := 0, y := 0, z := 0 } 100 100 50 (by norm_num) (by norm_num)
     (by norm_num) { x := 0, y := 0, z := 0 }⟩

/-! ## C6 — `CompositeStrategy` sequencing -/

/-- First sub-strategy's two actions for the concrete instance. -/
def subActsA : List MicroscopeAction :=
  [.moveStageTo { x := 1, y := 0, z := 0 }, .moveStageTo { x := 2, y := 0, z := 0 }]

/-- Second sub-strategy's two actions for the concrete instance. -/
def subActsB : List MicroscopeAction :=
  [.moveStageTo { x := 3, y := 0, z := 0 }, .moveStageTo { x := 4, y := 0, z := 0 }]

/-- A composite wrapping two sub-strategies that each yield exactly two
actions before returning the sentinel. -/
def twoTwoComposite : CompositeStrategy ℕ :=
  { strategies := [listSub subActsA, listSub subActsB], current_index := 0 }

/-- C6: `is_complete` holds exactly when `current_index` has reached the
end of the strategy list; one `next_action` call returns the current
sub-strategy's action (storing its mutated state, index unchanged) when
it yields one, and advances past it exactly when it returns the
sentinel; and the concrete two-times-two instance yields exactly the
four actions in list order over four calls, is not yet complete then,
and the fifth call returns the sentinel after which it is complete. -/
theorem composite_sequencing :
    (∀ (σ : Type) (c : CompositeStrategy σ) (p : Perception),
      c.is_complete p = true ↔ c.strategies.length ≤ c.current_index) ∧
    (∀ (σ : Type) (c : CompositeStrategy σ) (p : Perception) (s : SubStrategy σ)
      (a : MicroscopeAction) (st₁ : σ),
      c.strategies[c.current_index]? = some s →
      s.next_action s.state p = (some a, st₁) →
      c.next_action p =
        (some a, { strategies := c.strategies.set c.current_index { s with state := st₁ },
                   current_index := c.current_index })) ∧
    (∀ (σ : Type) (c : CompositeStrategy σ) (p : Perception) (s : SubStrategy σ) (st₁ : σ),
      c.strategies[c.current_index]? = some s →
      s.next_action s.state p = (none, st₁) →
      c.next_action p =
        CompositeStrategy.next_action
          { strategies := c.strategies.set c.current_index { s with state := st₁ },
            current_index := c.current_index + 1 } p) ∧
    (∀ p : Perception,
      (CompositeStrategy.runCalls p 4 twoTwoComposite).1 = subActsA ++ subActsB ∧
      (CompositeStrategy.runCalls p 4 twoTwoComposite).2.is_complete p = false ∧
      ((CompositeStrategy.runCalls p 4 twoTwoComposite).2.next_action p).1 = none ∧
      ((CompositeStrategy.runCalls p 4 twoTwoComposite).2.next_action p).2.is_complete p
        = true) := by
  refine ⟨?_, ?_, ?_, ?_⟩
  · intro σ c p
    simp [CompositeStrategy.is_complete]
  · intro σ c p s a st₁ hs hnext
    obtain ⟨hlt, hget⟩ := List.getElem?_eq_some.mp hs
    rw [CompositeStrategy.next_action, compositeGo, dif_pos hlt]
    simp only [hget, hnext]
  · intro σ c p s st₁ hs hnext
    obtain ⟨hlt, hget⟩ := List.getElem?_eq_some.mp hs
    rw [CompositeStrategy.next_action, CompositeStrategy.next_action, compositeGo, dif_pos hlt]
    simp only [hget, hnext]
  · intro p
    refine ⟨?_, ?_, ?_, ?_⟩ <;>
      simp [CompositeStrategy.runCalls, CompositeStrategy.next_action, compositeGo,
        CompositeStrategy.is_complete, twoTwoComposite, listSub, subActsA, subActsB]

/-- Witness for C6 at a concrete input: the one-call behaviour of the
concrete composite — the first sub-strategy yields its first action, the
index stays `0`, and the mutated counter is stored. -/
theorem composite_sequencing_witness :
    twoTwoComposite.next_action ({} : Perception) =
      (some (.moveStageTo { x := 1, y := 0, z := 0 }),
       { strategies := twoTwoComposite.strategies.set 0
           { listSub subActsA with state := 1 },
         current_index := 0 }) :=
  composite_sequencing.2.1 ℕ twoTwoComposite {} (listSub subActsA)
    (.moveStageTo { x := 1, y := 0, z := 0 }) 1 rfl rfl

/-! ## C8 — which low-confidence entity `FindCellsStrategy` revisits -/

/-- A perception holding two known entities, both with confidence below
`0.8`: `e1` last observed at time `100` at `(1,1,0)` (the stalest), `e2`
last observed at time `200` at `(2,2,0)` (the most recent). -/
def findCellsPerception : Perception :=
  { entities := [("e1", { entity_id := "e1" }), ("e2", { entity_id := "e2" })],
    confidence := [("e1", 1/2), ("e2", 3/5)],
    spatial_context := [("e1", (1, 1, 0)), ("e2", (2, 2, 0))],
    temporal_context := [("e1", 100), ("e2", 200)],
    quality_metrics := [] }

/-- A find-cells strategy already holding its minimum count of entities. -/
def findCells2 : FindCellsStrategy := { cell_type := .cell, min_count := 2 }

/-- C8 (showing the code bug): with two low-confidence entities on
record — `e1` stalest (minimum last-observed timestamp `100`, recorded at
`(1,1,0)`) and `e2` most recent (timestamp `200`, recorded at `(2,2,0)`)
— `next_action` moves to `(2,2,0)`: the source selects by `max(...,
key=temporal_context[·])`, the most recently observed entity, although
its own comment says "longest time since last observation", which is the
minimum. -/
theorem findCells_revisits_most_recent :
    findCellsPerception.temporal_context.get? "e1" = some 100 ∧
    findCellsPerception.temporal_context.get? "e2" = some 200 ∧
    (100 : ℚ) < 200 ∧
    findCellsPerception.spatial_context.get? "e1" = some (1, 1, 0) ∧
    FindCellsStrategy.next_action findCells2 findCellsPerception =
      .action (.moveStageTo { x := 2, y := 2, z := 0 }) findCells2 := by
  have hs12 : ¬ ("e1" : String) = "e2" := by decide
  have hs21 : ¬ ("e2" : String) = "e1" := by decide
  refine ⟨by norm_num [findCellsPerception, PyDict.get?, hs12, hs21],
    by norm_num [findCellsPerception, PyDict.get?, hs12, hs21], by norm_num,
    by norm_num [findCellsPerception, PyDict.get?, hs12, hs21], ?_⟩
  norm_num [FindCellsStrategy.next_action, findCellsPerception, findCells2, PyDict.get?,
    pyMaxByKey, List.filter, hs12, hs21]

/-! ## C9 — the two-stage autofocus search -/

/-- If no sampled score exceeds the running best, the best-tracking fold
of `_focus_search` keeps its accumulator. -/
theorem foldBest_const (score : ℚ → ℚ) (zs : List ℚ) :
    ∀ (b s : ℚ), (∀ z ∈ zs, score z ≤ s) →
      zs.foldl (fun best z => if score z > best.2 then (z, score z) else best) (b, s) = (b, s) := by
  induction zs with
  | nil => intro b s _; rfl
  | cons z t ih =>
    intro b s h
    rw [List.foldl_cons]
    rw [if_neg (not_lt.mpr (h z (List.mem_cons_self z t)))]
    exact ih b s (fun u hu => h u (List.mem_cons_of_mem z hu))

/-- When some sampled score exceeds the initial best, the fold of
`_focus_search` lands on the first element attaining the maximum score:
every earlier element scores strictly lower, every later one no higher. -/
theorem foldBest_first_max (score : ℚ → ℚ) (zs : List ℚ) :
    ∀ (b s : ℚ), (∃ z ∈ zs, s < score z) →
      ∃ pre w post, zs = pre ++ w :: post ∧
        zs.foldl (fun best z => if score z > best.2 then (z, score z) else best) (b, s) =
          (w, score w) ∧
        (∀ u ∈ pre, score u < score w) ∧ (∀ u ∈ post, score u ≤ score w) ∧ s < score w := by
  induction zs with
  | nil =>
    rintro b s ⟨z, hz, _⟩
    exact absurd hz (List.not_mem_nil z)
  | cons z t ih =>
    intro b s h
    rw [List.foldl_cons]
    by_cases hz : s < score z
    · rw [if_pos (show score z > (b, s).2 from hz)]
      by_cases ht : ∀ u ∈ t, score u ≤ score z
      · exact ⟨[], z, t, rfl, foldBest_const score t z (score z) ht, by simp, ht, hz⟩
      · push_neg at ht
        obtain ⟨pre, w, post, heq, hfold, hpre, hpost, hlt⟩ := ih z (score z) ht
        refine ⟨z :: pre, w, post, by rw [heq]; rfl, hfold, ?_, hpost, lt_trans hz hlt⟩
        intro u hu
        rcases List.mem_cons.mp hu with h₁ | h₁
        · rw [h₁]; exact hlt
        · exact hpre u h₁
    · rw [if_neg (show ¬ (score z > (b, s).2) from hz)]
      obtain ⟨z₀, hz₀, hz₀s⟩ := h
      have hz₀t : z₀ ∈ t := by
        rcases List.mem_cons.mp hz₀ with h₁ | h₁
        · exact absurd (h₁ ▸ hz₀s) hz
        · exact h₁
      obtain ⟨pre, w, post, heq, hfold, hpre, hpost, hlt⟩ := ih b s ⟨z₀, hz₀t, hz₀s⟩
      refine ⟨z :: pre, w, post, by rw [heq]; rfl, hfold, ?_, hpost, hlt⟩
      intro u hu
      rcases List.mem_cons.mp hu with h₁ | h₁
      · rw [h₁]; exact lt_of_le_of_lt (not_lt.mp hz) hlt
      · exact hpre u h₁

/-- A single `_focus_search` sweep, when some sampled score is positive
(i.e. beats the initial `best_score = 0`), returns the first sampled z
attaining the maximum score. -/
theorem focus_search_first_max (score : ℚ → ℚ) (center_z range_um step : ℚ)
    (h : ∃ z ∈ focusSearchSamples center_z range_um step, 0 < score z) :
    ∃ pre post,
      focusSearchSamples center_z range_um step =
        pre ++ (focus_search score center_z range_um step) :: post ∧
      (∀ u ∈ pre, score u < score (focus_search score center_z range_um step)) ∧
      (∀ u ∈ post, score u ≤ score (focus_search score center_z range_um step)) ∧
      0 < score (focus_search score center_z range_um step) := by
  obtain ⟨pre, w, post, heq, hfold, hpre, hpost, hlt⟩ :=
    foldBest_first_max score (focusSearchSamples center_z range_um step) center_z 0 h
  have hw : focus_search score center_z range_um step = w := by
    rw [focus_search, hfold]
  rw [hw]
  exact ⟨pre, post, heq, hpre, hpost, hlt⟩

/-- The z positions sampled by the coarse sweep of the counterexample and
witness instance: `center 0`, `range 4`, `step 1`. -/
theorem focusSamples_eval : focusSearchSamples 0 4 1 = [-2, -1, 0, 1, 2] := by
  rw [focusSearchSamples, np_arange]
  rw [show ⌈((0:ℚ) + 4 / 2 + 1 - (0 - 4 / 2)) / 1⌉ = 5 by norm_num]
  rw [show ((5:ℤ).toNat) = 5 from rfl]
  norm_num [List.range_succ]

/-- Counterexample to C9 as stated: with the focus score constantly
`-1`, every sampled z ties for the maximum, so the claimed rule ("ties
keep the first maximum encountered") picks the first sample `-2`; the
code, whose `best_score` starts at `0`, never updates and returns the
sweep center `0` instead — which is not the first maximum. -/
theorem focus_search_ties_cex :
    firstArgmax (focusSearchSamples 0 4 1) (fun _ => -1) = some (-2) ∧
    focus_search (fun _ => -1) 0 4 1 = 0 ∧ ((0:ℚ) ≠ -2) := by
  refine ⟨?_, ?_, by norm_num⟩
  · rw [focusSamples_eval]
    norm_num [firstArgmax, List.find?]
  · rw [focus_search, focusSamples_eval]
    norm_num [List.foldl_cons]

/-- C9, amended: provided each sweep samples at least one strictly
positive score (beating the code's initial `best_score = 0`), the
two-stage search behaves as claimed: the coarse sweep keeps the first
sampled z attaining the maximum coarse score, the fine sweep runs over a
range of `2 * coarse_step` centered on that coarse optimum, and the
final position (the value `find_sample_surface` moves the focus to and
returns) is the first z of the fine sweep attaining the maximum fine
score, ties resolved to the first maximum encountered in sweep order. -/
theorem autofocus_two_stage (score : ℚ → ℚ) (start_z search_range coarse_step fine_step : ℚ)
    (h₁ : ∃ z ∈ focusSearchSamples start_z search_range coarse_step, 0 < score z)
    (h₂ : ∃ z ∈ focusSearchSamples (focus_search score start_z search_range coarse_step)
        (coarse_step * 2) fine_step, 0 < score z) :
    (∃ pre post,
      focusSearchSamples start_z search_range coarse_step =
        pre ++ (focus_search score start_z search_range coarse_step) :: post ∧
      (∀ u ∈ pre, score u < score (focus_search score start_z search_range coarse_step)) ∧
      (∀ u ∈ post, score u ≤ score (focus_search score start_z search_range coarse_step))) ∧
    (∃ pre post,
      focusSearchSamples (focus_search score start_z search_range coarse_step)
          (coarse_step * 2) fine_step =
        pre ++ (find_sample_surface score start_z search_range coarse_step fine_step) :: post ∧
      (∀ u ∈ pre,
        score u < score (find_sample_surface score start_z search_range coarse_step fine_step)) ∧
      (∀ u ∈ post,
        score u ≤ score (find_sample_surface score start_z search_range coarse_step fine_step)))
    := by
  constructor
  · obtain ⟨pre, post, heq, hpre, hpost, _⟩ :=
      focus_search_first_max score start_z search_range coarse_step h₁
    exact ⟨pre, post, heq, hpre, hpost⟩
  · have hdef : find_sample_surface score start_z search_range coarse_step fine_step =
        focus_search score (focus_search score start_z search_range coarse_step)
          (coarse_step * 2) fine_step := rfl
    rw [hdef]
    obtain ⟨pre, post, heq, hpre, hpost, _⟩ :=
      focus_search_first_max score (focus_search score start_z search_range coarse_step)
        (coarse_step * 2) fine_step h₂
    exact ⟨pre, post, heq, hpre, hpost⟩

/-- With the constant score `1`, the coarse sweep of the witness instance
keeps its first sample. -/
theorem focus_search_const_one : focus_search (fun _ => (1:ℚ)) 0 4 1 = -2 := by
  rw [focus_search, focusSamples_eval]
  norm_num [List.foldl_cons]

/-- The fine-sweep samples of the witness instance: centered on the
coarse optimum `-2` over `2 * coarse_step = 2`. -/
theorem focusSamples_fine_eval : focusSearchSamples (-2) (1 * 2) 1 = [-3, -2, -1] := by
  rw [focusSearchSamples, np_arange]
  rw [show ⌈((-2:ℚ) + 1 * 2 / 2 + 1 - (-2 - 1 * 2 / 2)) / 1⌉ = 3 by norm_num]
  rw [show ((3:ℤ).toNat) = 3 from rfl]
  norm_num [List.range_succ]

/-- Witness for C9 (amended) at a concrete input: the constant score `1`
is positive on both sweeps of the instance `start 0, range 4, coarse
step 1, fine step 1`, and the two-stage conclusion holds there. -/
theorem autofocus_two_stage_witness :
    (∃ pre post,
      focusSearchSamples 0 4 1 = pre ++ (focus_search (fun _ => (1:ℚ)) 0 4 1) :: post ∧
      (∀ u ∈ pre, (fun _ => (1:ℚ)) u < (fun _ => (1:ℚ)) (focus_search (fun _ => (1:ℚ)) 0 4 1)) ∧
      (∀ u ∈ post, (fun _ => (1:ℚ)) u ≤ (fun _ => (1:ℚ)) (focus_search (fun _ => (1:ℚ)) 0 4 1))) ∧
    (∃ pre post,
      focusSearchSamples (focus_search (fun _ => (1:ℚ)) 0 4 1) (1 * 2) 1 =
        pre ++ (find_sample_surface (fun _ => (1:ℚ)) 0 4 1 1) :: post ∧
      (∀ u ∈ pre, (fun _ => (1:ℚ)) u < (fun _ => (1:ℚ)) (find_sample_surface (fun _ => (1:ℚ)) 0 4 1 1)) ∧
      (∀ u ∈ post, (fun _ => (1:ℚ)) u ≤ (fun _ => (1:ℚ)) (find_sample_surface (fun _ => (1:ℚ)) 0 4 1 1))) :=
  autofocus_two_stage (fun _ => (1:ℚ)) 0 4 1 1
    ⟨-2, by rw [focusSamples_eval]; norm_num, by norm_num⟩
    ⟨-3, by rw [focus_search_const_one, focusSamples_fine_eval]; norm_num, by norm_num⟩
